import Mathlib

/-! Verification of the CineRate/FilmRate backend (`main.py`) against its
specification.  Python strings are modelled as `List Char`, Python `int` as
`Int`, SQL tables as lists of row structures, and timestamps as integers
(seconds).  The SHA-256 hex digest is modelled as an abstract function
parameter `sha : PyStr → PyStr`; hypotheses state only the facts about it
that a theorem needs (its real outputs are 64 lowercase hex characters).
Python `int()` accepts any Unicode decimal digit, so the digit table is a
parameter `dv : Char → Option Nat`, constrained to agree with the ASCII
digits.  Fallible Python code is modelled with `Except Unit`/`Option`, where
`.error ()`/`none` marks an uncaught exception. -/

abbrev PyStr := List Char

/-- Model of Python `s.split(sep)` for a one-character separator: `n`
occurrences of the separator yield `n + 1` (possibly empty) pieces. -/
def splitOnChar (sep : Char) : List Char → List (List Char)
  | [] => [[]]
  | c :: rest =>
    if c = sep then [] :: splitOnChar sep rest
    else
      match splitOnChar sep rest with
      | [] => [[c]]
      | p :: ps => (c :: p) :: ps

/-- Number of occurrences of a character in a string. -/
def countChar (c : Char) : List Char → Nat
  | [] => 0
  | x :: xs => (if x = c then 1 else 0) + countChar c xs

/-- ASCII whitespace as stripped by Python `int()` around a numeric literal.
Python also strips the (rare) non-ASCII Unicode whitespace; that difference
does not affect any accept/reject verdict proved below, because a whitespace
character inside or replacing a digit always changes the parsed value or
makes parsing fail. -/
def isSpaceA (c : Char) : Bool :=
  c = ' ' || c = '\t' || c = '\n' || c = '\r' || c = '\x0b' || c = '\x0c'

/-- Strip whitespace from both ends, as `int()` does before parsing. -/
def stripSpaces (s : PyStr) : PyStr :=
  ((s.dropWhile isSpaceA).reverse.dropWhile isSpaceA).reverse

/-- Decimal digits of a natural number, most significant first, written with
explicit fuel so that the definition is structurally recursive (the fuel
`n + 1` always suffices since `n / 10 < n` for `n ≥ 10`). -/
def natDigitsFuel : Nat → Nat → List Char
  | 0, _ => []
  | fuel + 1, n =>
    if n < 10 then [Char.ofNat (48 + n)]
    else natDigitsFuel fuel (n / 10) ++ [Char.ofNat (48 + n % 10)]

/-- Decimal digit string of a natural number, e.g. `natDigits 13 = "13"`. -/
def natDigits (n : Nat) : List Char := natDigitsFuel (n + 1) n

/-- Model of Python `str(i)` for an `int` value. -/
def pyStrInt (n : Int) : PyStr :=
  if n < 0 then '-' :: natDigits (-n).toNat else natDigits n.toNat

/-- Digit part of a Python integer literal after its first digit: further
digits, with single underscores allowed between digits (`int("1_0") = 10`,
`int("1__0")` and `int("1_")` raise).  `dv` is the Unicode decimal-digit
table used by `int()` (`dv c = some d` when `c` is a decimal digit of value
`d`). -/
def digitsTail (dv : Char → Option Nat) (acc : Nat) : List Char → Option Nat
  | [] => some acc
  | c :: rest =>
    if c = '_' then
      match rest with
      | [] => none
      | c2 :: rest2 =>
        match dv c2 with
        | some d => digitsTail dv (acc * 10 + d) rest2
        | none => none
    else
      match dv c with
      | some d => digitsTail dv (acc * 10 + d) rest
      | none => none

/-- Digit part of a Python integer literal: one or more digits with optional
single underscores between them. -/
def digitsNum (dv : Char → Option Nat) : List Char → Option Nat
  | [] => none
  | c :: rest =>
    match dv c with
    | some d => digitsTail dv d rest
    | none => none

/-- Model of Python `int(s)` (base 10): strip surrounding whitespace, allow
one optional sign, then a digit part; `none` models the `ValueError`. -/
def pyIntParse (dv : Char → Option Nat) (s : PyStr) : Option Int :=
  match stripSpaces s with
  | [] => none
  | c :: rest =>
    if c = '+' then (digitsNum dv rest).map (fun m : Nat => (m : Int))
    else if c = '-' then (digitsNum dv rest).map (fun m : Nat => -(m : Int))
    else (digitsNum dv (c :: rest)).map (fun m : Nat => (m : Int))

/-! Credential and token shim (`hash_pwd`, `verify_pwd`, `make_token`,
`check_token` in `main.py`).  `sha` stands for
`hashlib.sha256(·).hexdigest()`; the random salt drawn by `hash_pwd`
(`secrets.token_hex(16)`, 32 hex characters) is made an explicit
parameter. -/

/-- Model of `hash_pwd`: returns `salt$sha256(pwd + salt)`. -/
def hash_pwd (sha : PyStr → PyStr) (pwd salt : PyStr) : PyStr :=
  salt ++ '$' :: sha (pwd ++ salt)

/-- Model of `verify_pwd`: returns `False` when the stored hash contains no
`$`; otherwise unpacks `salt, h = hashed.split("$")`, which raises
`ValueError` (modelled as `.error ()`) unless the split has exactly two
pieces, and compares the recomputed digest with `h`. -/
def verify_pwd (sha : PyStr → PyStr) (pwd hashed : PyStr) : Except Unit Bool :=
  if '$' ∉ hashed then .ok false
  else
    match splitOnChar '$' hashed with
    | [salt, h] => .ok (decide (sha (pwd ++ salt) = h))
    | _ => .error ()

/-- Message signed by the token scheme: `f"{user_id}:{ts}:{SECRET_KEY}"`. -/
def sigMsg (secret : PyStr) (user_id ts : Int) : PyStr :=
  pyStrInt user_id ++ ':' :: (pyStrInt ts ++ ':' :: secret)

/-- Truncated signature: `sha256(sigMsg).hexdigest()[:16]`. -/
def sigOf (sha : PyStr → PyStr) (secret : PyStr) (user_id ts : Int) : PyStr :=
  (sha (sigMsg secret user_id ts)).take 16

/-- Model of `make_token`: `f"{user_id}:{ts}:{sig}"` where `ts` is the
current UTC timestamp in whole seconds. -/
def make_token (sha : PyStr → PyStr) (secret : PyStr) (user_id ts : Int) : PyStr :=
  pyStrInt user_id ++ ':' :: (pyStrInt ts ++ ':' :: sigOf sha secret user_id ts)

/-- Body of `check_token` after `token.split(":")`: requires exactly three
parts, parses the first two with `int()` (a `ValueError` is swallowed by the
bare `except` and yields `None`), rejects tokens older than 24 hours, then
compares the third part with the recomputed truncated signature. -/
def checkParts (sha : PyStr → PyStr) (dv : Char → Option Nat) (secret : PyStr)
    (now : Int) : List PyStr → Option Int
  | [p0, p1, p2] =>
    match pyIntParse dv p0, pyIntParse dv p1 with
    | some user_id, some ts =>
      if now - ts > 86400 then none
      else if p2 ≠ sigOf sha secret user_id ts then none
      else some user_id
    | _, _ => none
  | _ => none

/-- Model of `check_token`, with the check time `now` made explicit. -/
def check_token (sha : PyStr → PyStr) (dv : Char → Option Nat) (secret : PyStr)
    (token : PyStr) (now : Int) : Option Int :=
  checkParts sha dv secret now (splitOnChar ':' token)

/-- The data `check_token` extracts from a token before the expiry and
signature checks: the two parsed integers and the raw signature part. -/
def tokenVals (dv : Char → Option Nat) (t : PyStr) : Option (Int × Int × PyStr) :=
  match splitOnChar ':' t with
  | [p0, p1, p2] =>
    match pyIntParse dv p0, pyIntParse dv p1 with
    | some u, some ts => some (u, ts, p2)
    | _, _ => none
  | _ => none

/-- `t'` is obtained from `t` by replacing exactly one character. -/
def MutatedAt (t t' : PyStr) : Prop :=
  ∃ p x y s, x ≠ y ∧ t = p ++ x :: s ∧ t' = p ++ y :: s

/-- The digit table agrees with the ASCII digits (true of Python's table). -/
def AsciiDigitTable (dv : Char → Option Nat) : Prop :=
  ∀ d : Nat, d < 10 → dv (Char.ofNat (48 + d)) = some d

/-- The truncated digest never contains `:` (true of hex digests). -/
def SigColonFree (sha : PyStr → PyStr) : Prop :=
  ∀ s : PyStr, ':' ∉ (sha s).take 16

/-- The truncated signature of `(u, ts)` has no other preimage among signing
messages: the collision-freeness of SHA-256 at the relevant points. -/
def SigInjectiveAt (sha : PyStr → PyStr) (secret : PyStr) (u ts : Int) : Prop :=
  ∀ u' ts' : Int, sigOf sha secret u' ts' = sigOf sha secret u ts → u' = u ∧ ts' = ts

/-- Behaviour of the token scheme for user `u` and issue time `ts`:
round-trip at issuance; expiry rejection; malformed-token rejection;
signature-mismatch rejection; and the single-character-mutation dichotomy:
every mutation of the token is rejected at every check time unless it leaves
the parsed user id, parsed timestamp and signature part all unchanged, in
which case `check_token` treats the mutated token exactly like the
original. -/
def checkTokenContract (sha : PyStr → PyStr) (dv : Char → Option Nat)
    (secret : PyStr) (u ts : Int) : Prop :=
  check_token sha dv secret (make_token sha secret u ts) ts = some u
  ∧ (∀ t p1 p2 p3 ts' now, splitOnChar ':' t = [p1, p2, p3] →
      pyIntParse dv p2 = some ts' → now - ts' > 86400 →
      check_token sha dv secret t now = none)
  ∧ (∀ t now, (splitOnChar ':' t).length ≠ 3 → check_token sha dv secret t now = none)
  ∧ (∀ t p1 p2 p3 u' ts' now, splitOnChar ':' t = [p1, p2, p3] →
      pyIntParse dv p1 = some u' → pyIntParse dv p2 = some ts' →
      p3 ≠ sigOf sha secret u' ts' → check_token sha dv secret t now = none)
  ∧ (∀ t', MutatedAt (make_token sha secret u ts) t' →
      (∀ now, check_token sha dv secret t' now = none)
      ∨ (tokenVals dv t' = some (u, ts, sigOf sha secret u ts)
         ∧ ∀ now, check_token sha dv secret t' now
             = check_token sha dv secret (make_token sha secret u ts) now))

/-- The ASCII-only fragment of the Unicode decimal-digit table. -/
def dvA : Char → Option Nat :=
  fun c => if 48 ≤ c.toNat ∧ c.toNat ≤ 57 then some (c.toNat - 48) else none

/-- A concrete fragment of Python's Unicode decimal-digit table: the ASCII
digits plus U+0663, ARABIC-INDIC DIGIT THREE, whose value is 3. -/
def dvC : Char → Option Nat :=
  fun c =>
    if 48 ≤ c.toNat ∧ c.toNat ≤ 57 then some (c.toNat - 48)
    else if c.toNat = 1635 then some 3 else none

/-- A concrete hash giving the token of user 13 issued at time 0 (with empty
secret) a collision-free truncated signature: only the message actually
signed for that token hashes to `aaaa…`; everything else hashes to
`bbbb…`. -/
def shaC : PyStr → PyStr :=
  fun s => if s = sigMsg [] 13 0 then List.replicate 64 'a' else List.replicate 64 'b'

/-- The token of user 13 issued at time 0 under `shaC`, with its user-id
digit `3` replaced by U+0663 (ARABIC-INDIC DIGIT THREE): a single-character
mutation that Python's `int()` still parses as 13. -/
def tokMutC : PyStr :=
  '1' :: Char.ofNat 1635 :: ':' :: '0' :: ':' :: List.replicate 16 'a'

/-! Login handler (`login` in `main.py`).  The handler first fetches
`SELECT id, username, display_name, hashed_password FROM users WHERE
username = ?`; the resulting row list is an input here.  An
`HTTPException` is a controlled HTTP response, modelled as a returned
value; an exception escaping `verify_pwd` propagates (`.error`). -/

structure UserRow where
  id : Int
  username : PyStr
  display_name : Option PyStr
  hashed_password : PyStr
deriving DecidableEq

structure PubUser where
  id : Int
  username : PyStr
  display_name : Option PyStr
deriving DecidableEq

inductive LoginResp
  | failure (status : Nat) (detail : PyStr)
  | success (access_token : PyStr) (user : PubUser)
deriving DecidableEq

/-- Model of the `/auth/login` handler: `users` is the fetch result for the
submitted username.  Failure is the single 401 "Invalid credentials"
response; success returns a fresh token and the row minus
`hashed_password`. -/
def login (sha : PyStr → PyStr) (secret : PyStr) (now : Int)
    (users : List UserRow) (password : PyStr) : Except Unit LoginResp :=
  match users with
  | [] => .ok (.failure 401 "Invalid credentials".data)
  | u :: _ =>
    match verify_pwd sha password u.hashed_password with
    | .error e => .error e
    | .ok false => .ok (.failure 401 "Invalid credentials".data)
    | .ok true =>
      .ok (.success (make_token sha secret u.id now) ⟨u.id, u.username, u.display_name⟩)

/-! Remote row store client (`DB.exec` in `main.py`). -/

/-- A Python value passed as a SQL parameter (`_make_args` input). -/
inductive PyVal
  | none
  | bool (b : Bool)
  | int (i : Int)
  | float (q : ℚ)
  | str (s : PyStr)
deriving DecidableEq

/-- A typed argument cell as serialized by `_make_args`. -/
inductive ArgVal
  | nullA
  | integerA (value : PyStr)
  | floatA (value : ℚ)
  | textA (value : PyStr)
deriving DecidableEq

/-- Model of `DB._make_args`: `None → null`, `bool → integer "1"/"0"`
(checked before `int` since `bool` is a subclass), `int → integer str(i)`,
`float → float` (raw), anything else → `text str(p)`. -/
def make_args (ps : List PyVal) : List ArgVal :=
  ps.map fun p =>
    match p with
    | .none => .nullA
    | .bool b => .integerA (if b then "1".data else "0".data)
    | .int i => .integerA (pyStrInt i)
    | .float q => .floatA q
    | .str s => .textA s

/-- One entry of the pipelined request body. -/
inductive PipelineReq
  | execute (sql : PyStr) (args : List ArgVal)
  | close
deriving DecidableEq

/-- The request body `DB.exec` posts: one statement plus a close directive. -/
def pipelineRequest (sql : PyStr) (params : List PyVal) : List PipelineReq :=
  [.execute sql (make_args params), .close]

/-- One entry of `data["results"]`; only its `"type"` tag is consulted. -/
structure ResultEntry where
  rtype : Option PyStr
deriving DecidableEq

/-- The gateway's HTTP reply: status code and decoded JSON body (`results`
is `none` when the body has no `"results"` key). -/
structure PipelineResponse where
  status : Nat
  results : Option (List ResultEntry)
deriving DecidableEq

namespace DB

/-- Model of `DB.exec`: posts `pipelineRequest sql params` and then raises a
generic store error (`.error ()`) when the reply status is not exactly 200,
or when some entry of `results` has type `"error"`; otherwise returns the
decoded reply. -/
def exec (sql : PyStr) (params : List PyVal) (resp : PipelineResponse) :
    Except Unit PipelineResponse :=
  if resp.status ≠ 200 then .error ()
  else if (resp.results.getD []).any (fun e => decide (e.rtype = some "error".data)) then
    .error ()
  else .ok resp

end DB

/-- The condition under which claim C7 says `DB.exec` raises: a non-2xx
status, or an `"error"`-typed entry in the body. -/
def dbErrorCond (resp : PipelineResponse) : Prop :=
  ¬ (200 ≤ resp.status ∧ resp.status < 300)
  ∨ ∃ e ∈ resp.results.getD [], e.rtype = some "error".data

/-- The condition under which the code's `DB.exec` actually raises. -/
def dbRaiseCond (resp : PipelineResponse) : Prop :=
  resp.status ≠ 200 ∨ ∃ e ∈ resp.results.getD [], e.rtype = some "error".data

/-! Ratings endpoints (`save_rating`, `delete_rating`, `stats`). -/

/-- `data.media_type or "movie"` (Python truthiness: `None` and `""` both
fall back to `"movie"`). -/
def mediaTypeOf (mt : Option PyStr) : PyStr :=
  match mt with
  | some s => if s = [] then "movie".data else s
  | none => "movie".data

/-- `data.comment if data.comment else None` (empty comment becomes NULL). -/
def commentOf (c : Option PyStr) : Option PyStr :=
  match c with
  | some s => if s = [] then none else some s
  | none => none

/-- A row of the `ratings` table, fields in column order. -/
structure RatingRow where
  id : Int
  user_id : Int
  media_type : Option PyStr
  tmdb_id : Int
  title : PyStr
  year : Option Int
  poster_path : Option PyStr
  tmdb_rating : Option ℚ
  user_rating : Int
  comment : Option PyStr
  genres : Option PyStr
  overview : Option PyStr
  created_at : Int
  updated_at : Int
deriving DecidableEq

/-- The `RatingData` request body (pydantic model). -/
structure RatingData where
  tmdb_id : Int
  title : PyStr
  year : Option Int
  poster_path : Option PyStr
  tmdb_rating : Option ℚ
  user_rating : Int
  comment : Option PyStr
  genres : Option PyStr
  overview : Option PyStr
  media_type : Option PyStr
deriving DecidableEq

inductive SaveResp
  | err (status : Nat) (detail : PyStr)
  | row (r : RatingRow)
deriving DecidableEq

/-- `WHERE user_id = ? AND tmdb_id = ?` on the ratings table. -/
def ratingMatches (uid tid : Int) (r : RatingRow) : Bool :=
  decide (r.user_id = uid) && decide (r.tmdb_id = tid)

/-- `SELECT … FROM ratings WHERE user_id = ? AND tmdb_id = ?`. -/
def selectRatings (tbl : List RatingRow) (uid tid : Int) : List RatingRow :=
  tbl.filter (ratingMatches uid tid)

/-- Effect of the handler's UPDATE on one row: matching rows get new
`user_rating`, `comment`, `media_type` and `updated_at`; others are kept. -/
def applyRatingUpdate (uid tid score : Int) (comment : Option PyStr)
    (mt : PyStr) (now : Int) (r : RatingRow) : RatingRow :=
  if ratingMatches uid tid r then
    ⟨r.id, r.user_id, some mt, r.tmdb_id, r.title, r.year, r.poster_path,
      r.tmdb_rating, score, comment, r.genres, r.overview, r.created_at, now⟩
  else r

/-- `UPDATE ratings SET user_rating = ?, comment = ?, media_type = ?,
updated_at = CURRENT_TIMESTAMP WHERE user_id = ? AND tmdb_id = ?`. -/
def updateRatings (tbl : List RatingRow) (uid tid score : Int)
    (comment : Option PyStr) (mt : PyStr) (now : Int) : List RatingRow :=
  tbl.map (applyRatingUpdate uid tid score comment mt now)

/-- The id SQLite assigns to a freshly inserted row (AUTOINCREMENT). -/
def nextRatingId (tbl : List RatingRow) : Int := (tbl.map (·.id)).foldl max 0 + 1

/-- The row built by the handler's INSERT (both timestamp columns default to
`CURRENT_TIMESTAMP`). -/
def newRatingRow (tbl : List RatingRow) (uid : Int) (d : RatingData) (now : Int) : RatingRow :=
  ⟨nextRatingId tbl, uid, some (mediaTypeOf d.media_type), d.tmdb_id, d.title,
    d.year, d.poster_path, d.tmdb_rating, d.user_rating, commentOf d.comment,
    d.genres, d.overview, now, now⟩

/-- The ratings table after the write step of `save_rating`: UPDATE when a
row for `(user_id, tmdb_id)` already exists, INSERT otherwise. -/
def savedTable (tbl : List RatingRow) (uid : Int) (d : RatingData) (now : Int) :
    List RatingRow :=
  if selectRatings tbl uid d.tmdb_id ≠ [] then
    updateRatings tbl uid d.tmdb_id d.user_rating (commentOf d.comment)
      (mediaTypeOf d.media_type) now
  else tbl ++ [newRatingRow tbl uid d now]

/-- Model of the `POST /ratings` handler `save_rating`: existence pre-check,
update or insert, then re-read `SELECT * … WHERE user_id = ? AND
tmdb_id = ?` and return its first row (500 if the re-read is empty). -/
def save_rating (tbl : List RatingRow) (uid : Int) (d : RatingData) (now : Int) :
    SaveResp × List RatingRow :=
  match selectRatings (savedTable tbl uid d now) uid d.tmdb_id with
  | [] => (.err 500 "Failed to save rating".data, savedTable tbl uid d now)
  | r :: _ => (.row r, savedTable tbl uid d now)

structure OkResp where
  ok : Bool
deriving DecidableEq

/-- Model of `DELETE /ratings/{tmdb_id}`: delete matching rows, always
answer `{"ok": True}`. -/
def delete_rating (tbl : List RatingRow) (uid tid : Int) : OkResp × List RatingRow :=
  (⟨true⟩, tbl.filter (fun r => ! ratingMatches uid tid r))

/-- Columns of a rating row that the UPDATE branch leaves untouched. -/
def ratingFrame (r : RatingRow) :
    Int × Int × Int × PyStr × Option Int × Option PyStr × Option ℚ ×
      Option PyStr × Option PyStr × Int :=
  (r.id, r.user_id, r.tmdb_id, r.title, r.year, r.poster_path, r.tmdb_rating,
    r.genres, r.overview, r.created_at)

/-! Watchlist endpoints. -/

structure WatchRow where
  id : Int
  user_id : Int
  media_type : Option PyStr
  tmdb_id : Int
  title : PyStr
  year : Option Int
  poster_path : Option PyStr
  tmdb_rating : Option ℚ
  genres : Option PyStr
  overview : Option PyStr
  created_at : Int
deriving DecidableEq

structure WatchlistData where
  tmdb_id : Int
  title : PyStr
  year : Option Int
  poster_path : Option PyStr
  tmdb_rating : Option ℚ
  genres : Option PyStr
  overview : Option PyStr
  media_type : Option PyStr
deriving DecidableEq

inductive WlResp
  | err (status : Nat) (detail : PyStr)
  | ok
deriving DecidableEq

/-- Outcome of `POST /watchlist`: the HTTP response, the resulting table,
and the number of INSERT statements the handler issued to the store. -/
structure WlOutcome where
  resp : WlResp
  table : List WatchRow
  insertsIssued : Nat
deriving DecidableEq

def wMatches (uid tid : Int) (w : WatchRow) : Bool :=
  decide (w.user_id = uid) && decide (w.tmdb_id = tid)

def wSelect (tbl : List WatchRow) (uid tid : Int) : List WatchRow :=
  tbl.filter (wMatches uid tid)

def nextWatchId (tbl : List WatchRow) : Int := (tbl.map (·.id)).foldl max 0 + 1

def newWatchRow (tbl : List WatchRow) (uid : Int) (d : WatchlistData) (now : Int) : WatchRow :=
  ⟨nextWatchId tbl, uid, some (mediaTypeOf d.media_type), d.tmdb_id, d.title,
    d.year, d.poster_path, d.tmdb_rating, d.genres, d.overview, now⟩

/-- Model of the `POST /watchlist` handler `add_to_watchlist`: existence
pre-check; a duplicate is rejected with 400 "Already in watchlist" before
any INSERT is issued; otherwise the row is inserted and `{"ok": True}`
(`WlResp.ok`) returned. -/
def add_to_watchlist (tbl : List WatchRow) (uid : Int) (d : WatchlistData) (now : Int) :
    WlOutcome :=
  if wSelect tbl uid d.tmdb_id ≠ [] then ⟨.err 400 "Already in watchlist".data, tbl, 0⟩
  else ⟨.ok, tbl ++ [newWatchRow tbl uid d now], 1⟩

/-- Model of `DELETE /watchlist/{tmdb_id}`: delete matching rows, always
answer `{"ok": True}`. -/
def remove_from_watchlist (tbl : List WatchRow) (uid tid : Int) : OkResp × List WatchRow :=
  (⟨true⟩, tbl.filter (fun w => ! wMatches uid tid w))

/-! Stats endpoint (`GET /ratings/stats`). -/

/-- The columns `stats` fetches for each of the user's ratings. -/
structure StatsRow where
  user_rating : Int
  genres : Option PyStr
  media_type : Option PyStr
  year : Option Int
deriving DecidableEq

/-- The stats response.  Python dicts are modelled as insertion-ordered
association lists; the `genres` entries are the `name`/`count` pairs and the
`by_year` entries the `year`/`count` pairs of the JSON response. -/
structure StatsResp where
  total : Nat
  average : ℚ
  max : Int
  min : Int
  distribution : List (PyStr × Nat)
  genres : List (PyStr × Nat)
  by_type : List (PyStr × Nat)
  by_year : List (Int × Nat)
deriving DecidableEq

def movieStr : PyStr := "movie".data

def tvStr : PyStr := "tv".data

/-- `d[k] += 1` on an insertion-ordered dict: `none` models the `KeyError`
raised when the key is absent. -/
def incrExisting {K : Type} [DecidableEq K] : List (K × Nat) → K → Option (List (K × Nat))
  | [], _ => none
  | (k', v) :: rest, k =>
    if k' = k then some ((k', v + 1) :: rest)
    else (incrExisting rest k).map (fun l => (k', v) :: l)

/-- `d[k] = d.get(k, 0) + 1` on an insertion-ordered dict. -/
def incrOrAppend {K : Type} [DecidableEq K] (l : List (K × Nat)) (k : K) : List (K × Nat) :=
  match incrExisting l k with
  | some l' => l'
  | none => l ++ [(k, 1)]

/-- `{str(i): 0 for i in range(1, 11)}`. -/
def dist0 : List (PyStr × Nat) := (List.range 10).map (fun i => (natDigits (i + 1), 0))

/-- The histogram loop `for r in ratings: dist[str(r)] += 1`; a score
outside 1..10 would raise a `KeyError` (`none`). -/
def bumpDist (dist : List (PyStr × Nat)) : List Int → Option (List (PyStr × Nat))
  | [] => some dist
  | r :: rs =>
    match incrExisting dist (pyStrInt r) with
    | some d' => bumpDist d' rs
    | none => none

/-- The genre counting for one row: skip falsy `genres`, split on `,`,
strip each piece, skip empty pieces, count the rest. -/
def statsGenres (g : List (PyStr × Nat)) (gs : Option PyStr) : List (PyStr × Nat) :=
  match gs with
  | none => g
  | some s =>
    if s = [] then g
    else
      (splitOnChar ',' s).foldl
        (fun gm piece =>
          if stripSpaces piece = [] then gm else incrOrAppend gm (stripSpaces piece)) g

/-- One iteration of the aggregation loop over the user's rating rows. -/
def statsFoldStep (acc : List (PyStr × Nat) × List (PyStr × Nat) × List (Int × Nat))
    (r : StatsRow) : List (PyStr × Nat) × List (PyStr × Nat) × List (Int × Nat) :=
  (statsGenres acc.1 r.genres,
   (match incrExisting acc.2.1 (mediaTypeOf r.media_type) with
    | some bt' => bt'
    | none => acc.2.1),
   (match r.year with
    | none => acc.2.2
    | some y => if y = 0 then acc.2.2 else incrOrAppend acc.2.2 y))

/-- The aggregation loop: genre counts, counts by media type (only the
pre-seeded keys `movie`/`tv` are counted), counts by year (`0`/`NULL`
years are skipped by Python truthiness). -/
def statsFold (rows : List StatsRow) :
    List (PyStr × Nat) × List (PyStr × Nat) × List (Int × Nat) :=
  rows.foldl statsFoldStep ([], [(movieStr, 0), (tvStr, 0)], [])

/-- Stable insertion into a descending-sorted list: `a` is placed before the
first element strictly below it, so earlier elements win ties, matching
Python's stable `sorted(…, reverse=True)`. -/
def insertByDesc {α : Type} (ltb : α → α → Bool) (a : α) : List α → List α
  | [] => [a]
  | b :: bs => if ltb a b then b :: insertByDesc ltb a bs else a :: b :: bs

/-- Stable descending sort (model of `sorted(…, key=…, reverse=True)`). -/
def sortByDesc {α : Type} (ltb : α → α → Bool) : List α → List α
  | [] => []
  | a :: rest => insertByDesc ltb a (sortByDesc ltb rest)

/-- Model of Python `round(x, 2)` on the exact rational average (Python
rounds a float, with ties to even; no claim depends on tie behaviour). -/
def round2 (q : ℚ) : ℚ := ((round (q * 100) : ℤ) : ℚ) / 100

def listMaxI : List Int → Int
  | [] => 0
  | x :: xs => xs.foldl max x

def listMinI : List Int → Int
  | [] => 0
  | x :: xs => xs.foldl min x

def sumI (l : List Int) : Int := l.foldl (· + ·) 0

/-- Model of the `GET /ratings/stats` handler: zero-filled aggregates when
the user has no ratings, otherwise the in-memory fold; `none` models an
uncaught exception (the `KeyError` of an out-of-range score). -/
def stats (rows : List StatsRow) : Option StatsResp :=
  if rows = [] then
    some ⟨0, 0, 0, 0, dist0, [], [(movieStr, 0), (tvStr, 0)], []⟩
  else
    match bumpDist dist0 (rows.map (·.user_rating)) with
    | none => none
    | some dist =>
      some ⟨(rows.map (·.user_rating)).length,
            round2 ((sumI (rows.map (·.user_rating)) : ℚ) / ((rows.map (·.user_rating)).length : ℚ)),
            listMaxI (rows.map (·.user_rating)),
            listMinI (rows.map (·.user_rating)),
            dist,
            (sortByDesc (fun a b => decide (a.2 < b.2)) (statsFold rows).1).take 8,
            (statsFold rows).2.1,
            (sortByDesc (fun a b => decide (a.1 < b.1)) (statsFold rows).2.2).take 10⟩

/-! Basic lemmas about the string model. -/

theorem splitOnChar_ne_nil (sep : Char) (s : List Char) : splitOnChar sep s ≠ [] := by
  induction s with
  | nil => simp [splitOnChar]
  | cons c rest ih =>
    simp only [splitOnChar]
    by_cases h : c = sep
    · simp [h]
    · simp only [h, if_false]
      cases hs : splitOnChar sep rest with
      | nil => simp
      | cons p ps => simp

theorem splitOnChar_no_sep {sep : Char} {s : List Char} (h : sep ∉ s) :
    splitOnChar sep s = [s] := by
  induction s with
  | nil => simp [splitOnChar]
  | cons c rest ih =>
    have hc : c ≠ sep := fun he => h (he ▸ List.mem_cons_self c rest)
    have hrest : sep ∉ rest := fun hm => h (List.mem_cons_of_mem c hm)
    simp only [splitOnChar, hc, if_false]
    rw [ih hrest]

theorem splitOnChar_append {sep : Char} {X : List Char} (Y : List Char) (h : sep ∉ X) :
    splitOnChar sep (X ++ sep :: Y) = X :: splitOnChar sep Y := by
  induction X with
  | nil => simp [splitOnChar]
  | cons c rest ih =>
    have hc : c ≠ sep := fun he => h (he ▸ List.mem_cons_self c rest)
    have hrest : sep ∉ rest := fun hm => h (List.mem_cons_of_mem c hm)
    have ih' := ih hrest
    show splitOnChar sep (c :: (rest ++ sep :: Y)) = (c :: rest) :: splitOnChar sep Y
    simp only [splitOnChar, hc, if_false, ih']

theorem splitOnChar_length (sep : Char) (s : List Char) :
    (splitOnChar sep s).length = countChar sep s + 1 := by
  induction s with
  | nil => simp [splitOnChar, countChar]
  | cons c rest ih =>
    simp only [splitOnChar, countChar]
    by_cases h : c = sep
    · simp only [h, if_true, if_pos rfl, List.length_cons, ih]
      omega
    · simp only [h, if_false]
      cases hs : splitOnChar sep rest with
      | nil => exact absurd hs (splitOnChar_ne_nil sep rest)
      | cons p ps =>
        rw [hs] at ih
        simpa using ih

theorem countChar_eq_zero_of_not_mem {c : Char} {s : List Char} (h : c ∉ s) :
    countChar c s = 0 := by
  induction s with
  | nil => rfl
  | cons x xs ih =>
    have hx : x ≠ c := fun he => h (he ▸ List.mem_cons_self x xs)
    have hxs : c ∉ xs := fun hm => h (List.mem_cons_of_mem x hm)
    simp [countChar, hx, ih hxs]

/-- C2: the password round-trip.  `verify_pwd p (hash_pwd p salt)` is true
for any salt `hash_pwd` draws (`secrets.token_hex` salts and hex digests
never contain `$`), and `verify_pwd p2 (hash_pwd p salt)` is false for
`p2 ≠ p` given that SHA-256 does not collide on the two salted inputs. -/
theorem verify_hash_roundtrip (sha : PyStr → PyStr) (p p2 salt : PyStr)
    (hsalt : '$' ∉ salt) (hsha : '$' ∉ sha (p ++ salt)) :
    verify_pwd sha p (hash_pwd sha p salt) = .ok true
    ∧ (sha (p2 ++ salt) ≠ sha (p ++ salt) →
        verify_pwd sha p2 (hash_pwd sha p salt) = .ok false) := by
  have hmem : '$' ∈ hash_pwd sha p salt := by
    unfold hash_pwd
    exact List.mem_append_right _ (List.mem_cons_self _ _)
  have hsplit : splitOnChar '$' (hash_pwd sha p salt) = [salt, sha (p ++ salt)] := by
    unfold hash_pwd
    rw [splitOnChar_append _ hsalt, splitOnChar_no_sep hsha]
  constructor
  · simp [verify_pwd, hmem, hsplit]
  · intro hne
    simp [verify_pwd, hmem, hsplit, hne]

/-- C2 witness: a concrete instance of the round-trip with `sha`
instantiated to a function that is injective at the needed points. -/
theorem verify_hash_roundtrip_witness :
    verify_pwd (fun s => s) "a".data (hash_pwd (fun s => s) "a".data "s".data) = .ok true
    ∧ verify_pwd (fun s => s) "b".data (hash_pwd (fun s => s) "a".data "s".data) = .ok false :=
  ⟨(verify_hash_roundtrip (fun s => s) "a".data "b".data "s".data (by decide) (by decide)).1,
   (verify_hash_roundtrip (fun s => s) "a".data "b".data "s".data (by decide) (by decide)).2
     (by decide)⟩

/-- C3 (amended): `verify_pwd` returns false for a stored hash with no `$`,
but for a malformed hash with two or more `$` characters the unpacking
`salt, h = hashed.split("$")` raises `ValueError` instead of returning
false. -/
theorem verify_pwd_malformed (sha : PyStr → PyStr) (pwd hashed : PyStr) :
    ('$' ∉ hashed → verify_pwd sha pwd hashed = .ok false)
    ∧ (2 ≤ countChar '$' hashed → verify_pwd sha pwd hashed = .error ()) := by
  refine ⟨fun h => by simp [verify_pwd, h], fun h2 => ?_⟩
  have hmem : '$' ∈ hashed := by
    by_contra hn
    rw [countChar_eq_zero_of_not_mem hn] at h2
    omega
  have hlen := splitOnChar_length '$' hashed
  rcases hs : splitOnChar '$' hashed with _ | ⟨a, _ | ⟨b, _ | ⟨c3, l⟩⟩⟩
  · exact absurd hs (splitOnChar_ne_nil _ _)
  · rw [hs] at hlen
    simp at hlen
    omega
  · rw [hs] at hlen
    simp at hlen
    omega
  · simp [verify_pwd, hmem, hs]

/-- C3 counterexample: a stored hash with two `$` characters makes
`verify_pwd` raise `ValueError` (modelled `.error ()`) instead of returning
false as the claim states. -/
theorem verify_pwd_raises_cex :
    countChar '$' "ab$cd$ef".data = 2
    ∧ verify_pwd (fun s => s) "pw".data "ab$cd$ef".data = .error () := by
  exact ⟨by decide, rfl⟩

/-- C3 witness: both branches of the amended claim at concrete inputs. -/
theorem verify_pwd_malformed_witness :
    verify_pwd (fun s => s) "pw".data "abcdef".data = .ok false
    ∧ verify_pwd (fun s => s) "pw".data "a$b$c".data = .error () :=
  ⟨(verify_pwd_malformed (fun s => s) "pw".data "abcdef".data).1 (by decide),
   (verify_pwd_malformed (fun s => s) "pw".data "a$b$c".data).2 (by decide)⟩

/-- C8: on a user with zero stored ratings, `stats` returns the zero-filled
aggregates (total/average/max/min all 0, histogram keys "1"–"10" all 0,
empty genres, `movie`/`tv` both 0, empty by-year list) and does not raise. -/
theorem stats_empty_zero :
    stats [] = some ⟨0, 0, 0, 0,
      [("1".data, 0), ("2".data, 0), ("3".data, 0), ("4".data, 0), ("5".data, 0),
       ("6".data, 0), ("7".data, 0), ("8".data, 0), ("9".data, 0), ("10".data, 0)],
      [], [("movie".data, 0), ("tv".data, 0)], []⟩ := by
  rfl

/-- C10: both DELETE endpoints answer `{"ok": True}` regardless of whether a
matching row existed, deletion is idempotent on the stored state, and after
deletion no matching row remains. -/
theorem delete_endpoints_always_ok (rtbl : List RatingRow) (wtbl : List WatchRow)
    (uid tid : Int) :
    (delete_rating rtbl uid tid).1 = ⟨true⟩
    ∧ (remove_from_watchlist wtbl uid tid).1 = ⟨true⟩
    ∧ (delete_rating (delete_rating rtbl uid tid).2 uid tid).2 = (delete_rating rtbl uid tid).2
    ∧ (remove_from_watchlist (remove_from_watchlist wtbl uid tid).2 uid tid).2
        = (remove_from_watchlist wtbl uid tid).2
    ∧ selectRatings (delete_rating rtbl uid tid).2 uid tid = []
    ∧ wSelect (remove_from_watchlist wtbl uid tid).2 uid tid = [] := by
  refine ⟨rfl, rfl, ?_, ?_, ?_, ?_⟩
  · simp [delete_rating, List.filter_filter]
  · simp [remove_from_watchlist, List.filter_filter]
  · simp [delete_rating, selectRatings, List.filter_filter]
  · simp [remove_from_watchlist, wSelect, List.filter_filter]

/-- C7 (amended): `DB.exec` raises the generic store error exactly when the
reply status differs from 200 — not merely when it is outside the 2xx
range — or when the body contains an `"error"`-typed result entry;
otherwise it returns the decoded reply. -/
theorem db_exec_raises_iff (sql : PyStr) (params : List PyVal) (resp : PipelineResponse) :
    (DB.exec sql params resp = .error () ↔ dbRaiseCond resp)
    ∧ (¬ dbRaiseCond resp → DB.exec sql params resp = .ok resp) := by
  have hany : ((resp.results.getD []).any (fun e => decide (e.rtype = some "error".data)) = true)
      ↔ ∃ e ∈ resp.results.getD [], e.rtype = some "error".data := by
    simp [List.any_eq_true]
  constructor
  · constructor
    · intro h
      by_cases h1 : resp.status = 200
      · right
        rw [← hany]
        by_contra hno
        rw [Bool.not_eq_true] at hno
        simp [DB.exec, h1, hno] at h
      · exact Or.inl h1
    · intro hc
      rcases hc with h1 | h2
      · simp [DB.exec, h1]
      · have ha := hany.mpr h2
        by_cases h1 : resp.status = 200 <;> simp [DB.exec, h1, ha]
  · intro hn
    have h1 : resp.status = 200 := by
      by_contra hx
      exact hn (Or.inl hx)
    have h2 : ¬ ∃ e ∈ resp.results.getD [], e.rtype = some "error".data :=
      fun he => hn (Or.inr he)
    have h2' : ((resp.results.getD []).any (fun e => decide (e.rtype = some "error".data))) = false := by
      rw [← Bool.not_eq_true, hany]
      exact h2
    simp [DB.exec, h1, h2']

/-- C7 counterexample: a 201 reply is a 2xx success with no error entry, so
the claim predicts no raise, but `DB.exec` checks `status != 200` and
raises. -/
theorem db_exec_non200_cex :
    (200 ≤ (201 : Nat) ∧ (201 : Nat) < 300)
    ∧ ({ status := 201, results := Option.none } : PipelineResponse).results.getD [] = []
    ∧ DB.exec "SELECT 1".data [] { status := 201, results := Option.none } = .error () :=
  ⟨by decide, rfl, rfl⟩

/-- C7 witness: a 200 reply without error entries is returned unraised. -/
theorem db_exec_raises_iff_witness :
    ¬ dbRaiseCond { status := 200, results := Option.none }
    ∧ DB.exec "SELECT 1".data [] { status := 200, results := Option.none }
        = .ok { status := 200, results := Option.none } :=
  ⟨by unfold dbRaiseCond; decide,
   (db_exec_raises_iff "SELECT 1".data [] _).2 (by unfold dbRaiseCond; decide)⟩

/-- C4: the login handler returns the identical 401 "Invalid credentials"
response both when no user row exists and when a row exists but the
password fails verification, and on success returns a fresh token plus the
row without its `hashed_password` field. -/
theorem login_uniform_failure (sha : PyStr → PyStr) (secret : PyStr) (now : Int)
    (password : PyStr) :
    login sha secret now [] password = .ok (.failure 401 "Invalid credentials".data)
    ∧ (∀ (u : UserRow) (rest : List UserRow),
        verify_pwd sha password u.hashed_password = .ok false →
        login sha secret now (u :: rest) password
          = .ok (.failure 401 "Invalid credentials".data))
    ∧ (∀ (u : UserRow) (rest : List UserRow),
        verify_pwd sha password u.hashed_password = .ok true →
        login sha secret now (u :: rest) password
          = .ok (.success (make_token sha secret u.id now) ⟨u.id, u.username, u.display_name⟩)) := by
  refine ⟨rfl, ?_, ?_⟩
  · intro u rest h
    simp [login, h]
  · intro u rest h
    simp [login, h]

/-- C4 witness: concrete unknown-user, wrong-password and success cases. -/
theorem login_uniform_failure_witness :
    login (fun s => s) "k".data 0 [] "a".data = .ok (.failure 401 "Invalid credentials".data)
    ∧ login (fun s => s) "k".data 0 [⟨1, "al".data, Option.none, "s$zz".data⟩] "a".data
        = .ok (.failure 401 "Invalid credentials".data)
    ∧ login (fun s => s) "k".data 0 [⟨1, "al".data, Option.none, "s$as".data⟩] "a".data
        = .ok (.success (make_token (fun s => s) "k".data 1 0) ⟨1, "al".data, Option.none⟩) :=
  ⟨(login_uniform_failure (fun s => s) "k".data 0 "a".data).1,
   (login_uniform_failure (fun s => s) "k".data 0 "a".data).2.1
     ⟨1, "al".data, Option.none, "s$zz".data⟩ [] rfl,
   (login_uniform_failure (fun s => s) "k".data 0 "a".data).2.2
     ⟨1, "al".data, Option.none, "s$as".data⟩ [] rfl⟩

theorem filter_map_of_pres {α : Type} {f : α → α} {p : α → Bool}
    (h : ∀ a, p (f a) = p a) :
    ∀ l : List α, (l.map f).filter p = (l.filter p).map f := by
  intro l
  induction l with
  | nil => rfl
  | cons a as ih =>
    by_cases hp : p a = true
    · simp [List.filter_cons, h a, hp, ih]
    · simp [List.filter_cons, h a, hp, ih]

theorem ratingMatches_applyUpdate (uid tid score : Int) (comment : Option PyStr)
    (mt : PyStr) (now : Int) (r : RatingRow) :
    ratingMatches uid tid (applyRatingUpdate uid tid score comment mt now r)
      = ratingMatches uid tid r := by
  unfold applyRatingUpdate
  by_cases h : ratingMatches uid tid r = true
  · rw [if_pos h]
    simp [ratingMatches]
  · rw [if_neg h]

theorem selectRatings_update (tbl : List RatingRow) (uid tid score : Int)
    (comment : Option PyStr) (mt : PyStr) (now : Int) :
    selectRatings (updateRatings tbl uid tid score comment mt now) uid tid
      = (selectRatings tbl uid tid).map (applyRatingUpdate uid tid score comment mt now) :=
  filter_map_of_pres (ratingMatches_applyUpdate uid tid score comment mt now) tbl

theorem newRatingRow_matches (tbl : List RatingRow) (uid : Int) (d : RatingData) (now : Int) :
    ratingMatches uid d.tmdb_id (newRatingRow tbl uid d now) = true := by
  simp [ratingMatches, newRatingRow]

theorem save_rating_snd (tbl : List RatingRow) (uid : Int) (d : RatingData) (now : Int) :
    (save_rating tbl uid d now).2 = savedTable tbl uid d now := by
  rcases h : selectRatings (savedTable tbl uid d now) uid d.tmdb_id with _ | ⟨r, rest⟩ <;>
    simp [save_rating, h]

theorem selectRatings_saved_ne_nil (tbl : List RatingRow) (uid : Int) (d : RatingData)
    (now : Int) :
    selectRatings (savedTable tbl uid d now) uid d.tmdb_id ≠ [] := by
  unfold savedTable
  by_cases h : selectRatings tbl uid d.tmdb_id = []
  · rw [if_neg (by simp [h])]
    rw [selectRatings, List.filter_append]
    have : List.filter (ratingMatches uid d.tmdb_id) [newRatingRow tbl uid d now]
        = [newRatingRow tbl uid d now] := by
      simp [List.filter_cons, newRatingRow_matches]
    simp [this]
  · rw [if_pos h]
    rw [selectRatings_update]
    simpa using h

/-- C5: the rating upsert updates in place when a row for
`(user_id, tmdb_id)` exists (same number of rows) and inserts a new row
otherwise; it always re-reads the resulting row, which exists, and returns
it; and posting twice for the same `(user, tmdb_id)` leaves exactly one
matching row holding the latest score. -/
theorem save_rating_upsert (tbl : List RatingRow) (uid : Int) (d : RatingData) (now : Int) :
    (selectRatings tbl uid d.tmdb_id ≠ [] →
      (save_rating tbl uid d now).2
          = updateRatings tbl uid d.tmdb_id d.user_rating (commentOf d.comment)
              (mediaTypeOf d.media_type) now
        ∧ ((save_rating tbl uid d now).2).length = tbl.length)
    ∧ (selectRatings tbl uid d.tmdb_id = [] →
        (save_rating tbl uid d now).2 = tbl ++ [newRatingRow tbl uid d now])
    ∧ selectRatings ((save_rating tbl uid d now).2) uid d.tmdb_id ≠ []
    ∧ (∀ (r : RatingRow) (rest : List RatingRow),
        selectRatings ((save_rating tbl uid d now).2) uid d.tmdb_id = r :: rest →
        (save_rating tbl uid d now).1 = .row r)
    ∧ (∀ (d2 : RatingData) (now2 : Int), d2.tmdb_id = d.tmdb_id →
        selectRatings tbl uid d.tmdb_id = [] →
        (selectRatings ((save_rating ((save_rating tbl uid d now).2) uid d2 now2).2)
            uid d.tmdb_id).length = 1
        ∧ ∀ r ∈ selectRatings ((save_rating ((save_rating tbl uid d now).2) uid d2 now2).2)
            uid d.tmdb_id, r.user_rating = d2.user_rating) := by
  refine ⟨?_, ?_, ?_, ?_, ?_⟩
  · intro h
    rw [save_rating_snd]
    unfold savedTable
    rw [if_pos h]
    exact ⟨rfl, by simp [updateRatings]⟩
  · intro h
    rw [save_rating_snd]
    unfold savedTable
    rw [if_neg (by simp [h])]
  · rw [save_rating_snd]
    exact selectRatings_saved_ne_nil tbl uid d now
  · intro r rest hr
    rw [save_rating_snd] at hr
    simp [save_rating, hr]
  · intro d2 now2 htid h0
    have ht1 : (save_rating tbl uid d now).2 = tbl ++ [newRatingRow tbl uid d now] := by
      rw [save_rating_snd]
      unfold savedTable
      rw [if_neg (by simp [h0])]
    have hfil1 : List.filter (ratingMatches uid d.tmdb_id) [newRatingRow tbl uid d now]
        = [newRatingRow tbl uid d now] := by
      simp [List.filter_cons, newRatingRow_matches]
    have hsel1 : selectRatings ((save_rating tbl uid d now).2) uid d.tmdb_id
        = [newRatingRow tbl uid d now] := by
      rw [ht1, selectRatings, List.filter_append]
      rw [selectRatings] at h0
      rw [h0, hfil1]
      rfl
    have hne1 : selectRatings ((save_rating tbl uid d now).2) uid d2.tmdb_id ≠ [] := by
      rw [htid, hsel1]
      simp
    have ht2 : (save_rating ((save_rating tbl uid d now).2) uid d2 now2).2
        = updateRatings ((save_rating tbl uid d now).2) uid d2.tmdb_id d2.user_rating
            (commentOf d2.comment) (mediaTypeOf d2.media_type) now2 := by
      rw [save_rating_snd]
      unfold savedTable
      rw [if_pos hne1]
    have hsel2 : selectRatings ((save_rating ((save_rating tbl uid d now).2) uid d2 now2).2)
        uid d.tmdb_id
        = [applyRatingUpdate uid d.tmdb_id d2.user_rating (commentOf d2.comment)
            (mediaTypeOf d2.media_type) now2 (newRatingRow tbl uid d now)] := by
      rw [ht2, htid, selectRatings_update, hsel1]
      rfl
    refine ⟨by rw [hsel2]; rfl, ?_⟩
    intro r hr
    rw [hsel2] at hr
    rcases List.mem_singleton.mp hr with rfl
    unfold applyRatingUpdate
    rw [if_pos (newRatingRow_matches tbl uid d now)]

/-- C5 witness: inserting into an empty table and posting the same item a
second time yields one matching row with the latest score. -/
theorem save_rating_upsert_witness :
    (save_rating [] 7
        ⟨42, "X".data, Option.none, Option.none, Option.none, 7, Option.none,
          Option.none, Option.none, Option.none⟩ 0).2
      = [] ++ [newRatingRow [] 7
          ⟨42, "X".data, Option.none, Option.none, Option.none, 7, Option.none,
            Option.none, Option.none, Option.none⟩ 0]
    ∧ (selectRatings ((save_rating ((save_rating [] 7
          ⟨42, "X".data, Option.none, Option.none, Option.none, 7, Option.none,
            Option.none, Option.none, Option.none⟩ 0).2) 7
          ⟨42, "X".data, Option.none, Option.none, Option.none, 9, Option.none,
            Option.none, Option.none, Option.none⟩ 1).2) 7 42).length = 1 :=
  ⟨(save_rating_upsert [] 7
      ⟨42, "X".data, Option.none, Option.none, Option.none, 7, Option.none,
        Option.none, Option.none, Option.none⟩ 0).2.1 rfl,
   ((save_rating_upsert [] 7
      ⟨42, "X".data, Option.none, Option.none, Option.none, 7, Option.none,
        Option.none, Option.none, Option.none⟩ 0).2.2.2.2
      ⟨42, "X".data, Option.none, Option.none, Option.none, 9, Option.none,
        Option.none, Option.none, Option.none⟩ 1 rfl rfl).1⟩

theorem ratingFrame_applyUpdate (uid tid score : Int) (comment : Option PyStr)
    (mt : PyStr) (now : Int) (r : RatingRow) :
    ratingFrame (applyRatingUpdate uid tid score comment mt now r) = ratingFrame r := by
  unfold applyRatingUpdate
  by_cases h : ratingMatches uid tid r = true
  · rw [if_pos h]
    rfl
  · rw [if_neg h]

/-- C9: on the update branch of the rating upsert, every column other than
`user_rating`, `comment`, `media_type` and `updated_at` — in particular the
cached metadata `title`, `year`, `poster_path`, `tmdb_rating`, `genres`,
`overview` — keeps its stored value, whatever the POST body contains. -/
theorem save_rating_update_frame (tbl : List RatingRow) (uid : Int) (d : RatingData)
    (now : Int) (h : selectRatings tbl uid d.tmdb_id ≠ []) :
    ((save_rating tbl uid d now).2).map ratingFrame = tbl.map ratingFrame := by
  rw [save_rating_snd]
  unfold savedTable
  rw [if_pos h]
  unfold updateRatings
  rw [List.map_map]
  apply List.map_congr_left
  intro r _
  exact ratingFrame_applyUpdate uid d.tmdb_id d.user_rating (commentOf d.comment)
    (mediaTypeOf d.media_type) now r

/-- C9 witness: a concrete update that tries to overwrite the cached title
and leaves all frame columns unchanged. -/
theorem save_rating_update_frame_witness :
    selectRatings [⟨1, 7, some "movie".data, 42, "Old".data, Option.none, Option.none,
        Option.none, 5, Option.none, Option.none, Option.none, 0, 0⟩] 7
      (⟨42, "New".data, Option.none, Option.none, Option.none, 9, Option.none,
        Option.none, Option.none, Option.none⟩ : RatingData).tmdb_id ≠ []
    ∧ ((save_rating [⟨1, 7, some "movie".data, 42, "Old".data, Option.none, Option.none,
          Option.none, 5, Option.none, Option.none, Option.none, 0, 0⟩] 7
          ⟨42, "New".data, Option.none, Option.none, Option.none, 9, Option.none,
            Option.none, Option.none, Option.none⟩ 3).2).map ratingFrame
        = [⟨1, 7, some "movie".data, 42, "Old".data, Option.none, Option.none,
            Option.none, 5, Option.none, Option.none, Option.none, 0, 0⟩].map ratingFrame :=
  ⟨by decide,
   save_rating_update_frame [⟨1, 7, some "movie".data, 42, "Old".data, Option.none,
       Option.none, Option.none, 5, Option.none, Option.none, Option.none, 0, 0⟩] 7
     ⟨42, "New".data, Option.none, Option.none, Option.none, 9, Option.none,
       Option.none, Option.none, Option.none⟩ 3 (by decide)⟩

theorem newWatchRow_matches (tbl : List WatchRow) (uid : Int) (d : WatchlistData) (now : Int) :
    wMatches uid d.tmdb_id (newWatchRow tbl uid d now) = true := by
  simp [wMatches, newWatchRow]

theorem add_to_watchlist_dup {tbl : List WatchRow} {uid : Int} {d : WatchlistData}
    {now : Int} (h : wSelect tbl uid d.tmdb_id ≠ []) :
    add_to_watchlist tbl uid d now = ⟨.err 400 "Already in watchlist".data, tbl, 0⟩ := by
  unfold add_to_watchlist
  rw [if_pos h]

/-- C6: the watchlist insert pre-checks existence and answers 400 "Already
in watchlist" for a duplicate `(user_id, tmdb_id)` without issuing any
INSERT and without changing the stored state; a second POST of the same
item therefore returns the conflict and leaves exactly one matching row. -/
theorem watchlist_insert_conflict (tbl : List WatchRow) (uid : Int) (d : WatchlistData)
    (now : Int) :
    (wSelect tbl uid d.tmdb_id ≠ [] →
      add_to_watchlist tbl uid d now = ⟨.err 400 "Already in watchlist".data, tbl, 0⟩)
    ∧ (wSelect tbl uid d.tmdb_id = [] →
        add_to_watchlist tbl uid d now = ⟨.ok, tbl ++ [newWatchRow tbl uid d now], 1⟩)
    ∧ (∀ (d2 : WatchlistData) (now2 : Int), d2.tmdb_id = d.tmdb_id →
        wSelect tbl uid d.tmdb_id = [] →
        add_to_watchlist ((add_to_watchlist tbl uid d now).table) uid d2 now2
          = ⟨.err 400 "Already in watchlist".data, (add_to_watchlist tbl uid d now).table, 0⟩
        ∧ (wSelect ((add_to_watchlist tbl uid d now).table) uid d.tmdb_id).length = 1) := by
  refine ⟨?_, ?_, ?_⟩
  · exact fun h => add_to_watchlist_dup h
  · intro h
    unfold add_to_watchlist
    rw [if_neg (by simp [h])]
  · intro d2 now2 htid h0
    have ht1 : (add_to_watchlist tbl uid d now).table = tbl ++ [newWatchRow tbl uid d now] := by
      unfold add_to_watchlist
      rw [if_neg (by simp [h0])]
    have hfil1 : List.filter (wMatches uid d.tmdb_id) [newWatchRow tbl uid d now]
        = [newWatchRow tbl uid d now] := by
      simp [List.filter_cons, newWatchRow_matches]
    have hsel1 : wSelect ((add_to_watchlist tbl uid d now).table) uid d.tmdb_id
        = [newWatchRow tbl uid d now] := by
      rw [ht1, wSelect, List.filter_append]
      rw [wSelect] at h0
      rw [h0, hfil1]
      rfl
    have hne : wSelect ((add_to_watchlist tbl uid d now).table) uid d2.tmdb_id ≠ [] := by
      rw [htid, hsel1]
      simp
    exact ⟨add_to_watchlist_dup hne, by rw [hsel1]; rfl⟩

/-- C6 witness: adding an item to an empty watchlist and posting it again
returns the conflict and keeps one matching row. -/
theorem watchlist_insert_conflict_witness :
    add_to_watchlist ((add_to_watchlist [] 7
        ⟨42, "X".data, Option.none, Option.none, Option.none, Option.none,
          Option.none, Option.none⟩ 0).table) 7
      ⟨42, "X".data, Option.none, Option.none, Option.none, Option.none,
        Option.none, Option.none⟩ 1
      = ⟨.err 400 "Already in watchlist".data,
          (add_to_watchlist [] 7
            ⟨42, "X".data, Option.none, Option.none, Option.none, Option.none,
              Option.none, Option.none⟩ 0).table, 0⟩
    ∧ (wSelect ((add_to_watchlist [] 7
        ⟨42, "X".data, Option.none, Option.none, Option.none, Option.none,
          Option.none, Option.none⟩ 0).table) 7 42).length = 1 :=
  (watchlist_insert_conflict [] 7
      ⟨42, "X".data, Option.none, Option.none, Option.none, Option.none,
        Option.none, Option.none⟩ 0).2.2
    ⟨42, "X".data, Option.none, Option.none, Option.none, Option.none,
      Option.none, Option.none⟩ 1 rfl rfl

/-! Lemmas about the decimal representation and `int()` parsing. -/

theorem natDigitsFuel_congr : ∀ (f g n : Nat), n < f → n < g →
    natDigitsFuel f n = natDigitsFuel g n := by
  intro f
  induction f with
  | zero => intro g n h; omega
  | succ f ih =>
    intro g n hf hg
    cases g with
    | zero => omega
    | succ g' =>
      simp only [natDigitsFuel]
      by_cases h10 : n < 10
      · simp [h10]
      · have hd : n / 10 < n := Nat.div_lt_self (by omega) (by omega)
        simp only [h10, if_false]
        rw [ih g' (n / 10) (by omega) (by omega)]

theorem natDigits_eq (n : Nat) :
    natDigits n = if n < 10 then [Char.ofNat (48 + n)]
      else natDigits (n / 10) ++ [Char.ofNat (48 + n % 10)] := by
  have h0 : natDigits n = if n < 10 then [Char.ofNat (48 + n)]
      else natDigitsFuel n (n / 10) ++ [Char.ofNat (48 + n % 10)] := rfl
  rw [h0]
  by_cases h10 : n < 10
  · rw [if_pos h10, if_pos h10]
  · have hd : n / 10 < n := Nat.div_lt_self (by omega) (by omega)
    rw [if_neg h10, if_neg h10]
    congr 1
    show natDigitsFuel n (n / 10) = natDigitsFuel (n / 10 + 1) (n / 10)
    exact natDigitsFuel_congr n (n / 10 + 1) (n / 10) (by omega) (by omega)

theorem natDigits_ne_nil (n : Nat) : natDigits n ≠ [] := by
  rw [natDigits_eq]
  by_cases h : n < 10 <;> simp [h]

theorem natDigits_chars (n : Nat) :
    ∀ c ∈ natDigits n, ∃ d, d < 10 ∧ c = Char.ofNat (48 + d) := by
  induction n using Nat.strong_induction_on with
  | _ n ih =>
    rw [natDigits_eq]
    by_cases h : n < 10
    · rw [if_pos h]
      intro c hc
      rcases List.mem_singleton.mp hc with rfl
      exact ⟨n, h, rfl⟩
    · have hd : n / 10 < n := Nat.div_lt_self (by omega) (by omega)
      rw [if_neg h]
      intro c hc
      rcases List.mem_append.mp hc with hm | hm
      · exact ih (n / 10) hd c hm
      · rcases List.mem_singleton.mp hm with rfl
        exact ⟨n % 10, Nat.mod_lt n (by omega), rfl⟩

theorem digit_char_facts : ∀ d : Nat, d < 10 →
    (Char.ofNat (48 + d)).toNat = 48 + d
    ∧ isSpaceA (Char.ofNat (48 + d)) = false
    ∧ Char.ofNat (48 + d) ≠ '+'
    ∧ Char.ofNat (48 + d) ≠ '-'
    ∧ Char.ofNat (48 + d) ≠ '_'
    ∧ Char.ofNat (48 + d) ≠ ':' := by
  intro d hd
  interval_cases d <;> exact (by decide)

theorem dropWhile_eq_self_of_all {p : Char → Bool} :
    ∀ {s : List Char}, (∀ c ∈ s, p c = false) → s.dropWhile p = s
  | [], _ => rfl
  | a :: l, h => by
    simp [List.dropWhile_cons, h a (List.mem_cons_self a l)]

theorem stripSpaces_eq_self {s : PyStr} (h : ∀ c ∈ s, isSpaceA c = false) :
    stripSpaces s = s := by
  unfold stripSpaces
  rw [dropWhile_eq_self_of_all h,
    dropWhile_eq_self_of_all (fun c hc => h c (List.mem_reverse.mp hc)),
    List.reverse_reverse]

theorem pyStrInt_chars (n : Int) :
    ∀ c ∈ pyStrInt n, c = '-' ∨ ∃ d, d < 10 ∧ c = Char.ofNat (48 + d) := by
  unfold pyStrInt
  by_cases h : n < 0
  · rw [if_pos h]
    intro c hc
    rcases List.mem_cons.mp hc with rfl | hm
    · exact Or.inl rfl
    · exact Or.inr (natDigits_chars _ c hm)
  · rw [if_neg h]
    intro c hc
    exact Or.inr (natDigits_chars _ c hc)

theorem pyStrInt_no_colon (n : Int) : ':' ∉ pyStrInt n := by
  intro hm
  rcases pyStrInt_chars n ':' hm with h | ⟨d, hd, h⟩
  · exact absurd h (by decide)
  · exact absurd h.symm (digit_char_facts d hd).2.2.2.2.2

theorem pyStrInt_no_space (n : Int) : ∀ c ∈ pyStrInt n, isSpaceA c = false := by
  intro c hc
  rcases pyStrInt_chars n c hc with rfl | ⟨d, hd, rfl⟩
  · decide
  · exact (digit_char_facts d hd).2.1

theorem digitsTail_cons_digit (dv : Char → Option Nat) (acc : Nat) (c : Char)
    (rest : List Char) (d : Nat) (hne : c ≠ '_') (hc : dv c = some d) :
    digitsTail dv acc (c :: rest) = digitsTail dv (acc * 10 + d) rest := by
  cases rest with
  | nil => rw [digitsTail.eq_2, if_neg hne, hc]
  | cons c2 rest2 => rw [digitsTail.eq_3, if_neg hne, hc]

theorem digitsNum_cons_digit (dv : Char → Option Nat) (c : Char) (rest : List Char)
    (d : Nat) (hc : dv c = some d) :
    digitsNum dv (c :: rest) = digitsTail dv d rest := by
  rw [digitsNum.eq_2, hc]

theorem pyIntParse_of_strip_cons {dv : Char → Option Nat} {s : PyStr} {c : Char}
    {rest : List Char} (h : stripSpaces s = c :: rest) :
    pyIntParse dv s
      = if c = '+' then (digitsNum dv rest).map (fun m : Nat => (m : Int))
        else if c = '-' then (digitsNum dv rest).map (fun m : Nat => -(m : Int))
        else (digitsNum dv (c :: rest)).map (fun m : Nat => (m : Int)) := by
  unfold pyIntParse
  rw [h]

theorem digitsTail_all_digits (dv : Char → Option Nat) (hdv : AsciiDigitTable dv) :
    ∀ ds : List Char, (∀ c ∈ ds, ∃ d, d < 10 ∧ c = Char.ofNat (48 + d)) →
      ∀ acc : Nat,
        digitsTail dv acc ds
          = some (ds.foldl (fun a c => a * 10 + (c.toNat - 48)) acc) := by
  intro ds
  induction ds with
  | nil => intro _ acc; rfl
  | cons c rest ih =>
    intro h acc
    obtain ⟨d, hd, rfl⟩ := h c (List.mem_cons_self _ _)
    have hf := digit_char_facts d hd
    rw [digitsTail_cons_digit dv acc _ rest d hf.2.2.2.2.1 (hdv d hd)]
    rw [ih (fun c hc => h c (List.mem_cons_of_mem _ hc)) (acc * 10 + d)]
    simp only [List.foldl_cons, hf.1]
    congr 2
    omega

theorem natDigits_foldl : ∀ m acc : Nat,
    (natDigits m).foldl (fun a c => a * 10 + (c.toNat - 48)) acc
      = acc * 10 ^ (natDigits m).length + m := by
  intro m
  induction m using Nat.strong_induction_on with
  | _ m ih =>
    intro acc
    rw [natDigits_eq]
    by_cases h : m < 10
    · simp only [h, if_true, List.foldl_cons, List.foldl_nil, List.length_singleton,
        pow_one, (digit_char_facts m h).1]
      omega
    · have hd : m / 10 < m := Nat.div_lt_self (by omega) (by omega)
      simp only [h, if_false, List.foldl_append, List.foldl_cons, List.foldl_nil,
        List.length_append, List.length_singleton]
      rw [ih (m / 10) hd acc]
      rw [(digit_char_facts (m % 10) (Nat.mod_lt m (by omega))).1]
      have h1 : 10 * (m / 10) + m % 10 = m := Nat.div_add_mod m 10
      have h2 : 10 ^ ((natDigits (m / 10)).length + 1)
          = 10 ^ (natDigits (m / 10)).length * 10 := pow_succ 10 _
      rw [h2]
      have h3 : 48 + m % 10 - 48 = m % 10 := by omega
      rw [h3]
      nlinarith [h1]

theorem digitsNum_natDigits (dv : Char → Option Nat) (hdv : AsciiDigitTable dv) (m : Nat) :
    digitsNum dv (natDigits m) = some m := by
  rcases hnd : natDigits m with _ | ⟨c, rest⟩
  · exact absurd hnd (natDigits_ne_nil m)
  · have hmem : c ∈ natDigits m := by rw [hnd]; exact List.mem_cons_self _ _
    obtain ⟨d, hd, rfl⟩ := natDigits_chars m c hmem
    have hrest : ∀ x ∈ rest, ∃ d, d < 10 ∧ x = Char.ofNat (48 + d) := by
      intro x hx
      exact natDigits_chars m x (by rw [hnd]; exact List.mem_cons_of_mem _ hx)
    rw [digitsNum_cons_digit dv _ rest d (hdv d hd)]
    rw [digitsTail_all_digits dv hdv rest hrest d]
    have hall := natDigits_foldl m 0
    rw [hnd] at hall
    simp only [List.foldl_cons, (digit_char_facts d hd).1] at hall
    have h3 : 0 * 10 + (48 + d - 48) = d := by omega
    rw [h3] at hall
    rw [hall]
    simp

theorem pyIntParse_pyStrInt (dv : Char → Option Nat) (hdv : AsciiDigitTable dv) (n : Int) :
    pyIntParse dv (pyStrInt n) = some n := by
  have hstrip : stripSpaces (pyStrInt n) = pyStrInt n :=
    stripSpaces_eq_self (pyStrInt_no_space n)
  by_cases hn : n < 0
  · have hds : pyStrInt n = '-' :: natDigits (-n).toNat := by
      unfold pyStrInt
      rw [if_pos hn]
    have hcons : stripSpaces (pyStrInt n) = '-' :: natDigits (-n).toNat := by
      rw [hstrip, hds]
    have h1 : ('-' : Char) ≠ '+' := by decide
    rw [pyIntParse_of_strip_cons hcons, if_neg h1, if_pos rfl,
      digitsNum_natDigits dv hdv]
    simp only [Option.map_some']
    congr 1
    rw [Int.toNat_of_nonneg (by omega : (0 : Int) ≤ -n)]
    omega
  · have hds : pyStrInt n = natDigits n.toNat := by
      unfold pyStrInt
      rw [if_neg hn]
    rcases hnd : natDigits n.toNat with _ | ⟨c, rest⟩
    · exact absurd hnd (natDigits_ne_nil _)
    · have hmem : c ∈ natDigits n.toNat := by rw [hnd]; exact List.mem_cons_self _ _
      obtain ⟨d, hd, rfl⟩ := natDigits_chars _ c hmem
      have hf := digit_char_facts d hd
      have hcons : stripSpaces (pyStrInt n) = Char.ofNat (48 + d) :: rest := by
        rw [hstrip, hds, hnd]
      rw [pyIntParse_of_strip_cons hcons, if_neg hf.2.2.1, if_neg hf.2.2.2.1]
      rw [← hnd, digitsNum_natDigits dv hdv]
      simp only [Option.map_some']
      congr 1
      rw [Int.toNat_of_nonneg (by omega)]

/-! Lemmas about token structure and single-character mutations. -/

theorem dvA_ascii : AsciiDigitTable dvA := by
  unfold AsciiDigitTable dvA
  decide

theorem pyStrInt_inj {a b : Int} (h : pyStrInt a = pyStrInt b) : a = b := by
  have ha := pyIntParse_pyStrInt dvA dvA_ascii a
  rw [h, pyIntParse_pyStrInt dvA dvA_ascii b] at ha
  exact (Option.some.injEq _ _ ▸ ha).symm

theorem not_mem_append_cons {c y : Char} {p q : List Char}
    (hp : c ∉ p) (hq : c ∉ q) (hy : y ≠ c) : c ∉ p ++ y :: q := by
  intro hm
  rcases List.mem_append.mp hm with h | h
  · exact hp h
  · rcases List.mem_cons.mp h with h | h
    · exact hy h.symm
    · exact hq h

theorem split_token {A B C : PyStr} (hA : ':' ∉ A) (hB : ':' ∉ B) (hC : ':' ∉ C) :
    splitOnChar ':' (A ++ ':' :: (B ++ ':' :: C)) = [A, B, C] := by
  rw [splitOnChar_append _ hA, splitOnChar_append _ hB, splitOnChar_no_sep hC]

theorem split_token2 {A B : PyStr} (hA : ':' ∉ A) (hB : ':' ∉ B) :
    splitOnChar ':' (A ++ ':' :: B) = [A, B] := by
  rw [splitOnChar_append _ hA, splitOnChar_no_sep hB]

theorem split_token4 {A B C D : PyStr} (hA : ':' ∉ A) (hB : ':' ∉ B) (hC : ':' ∉ C)
    (hD : ':' ∉ D) :
    splitOnChar ':' (A ++ ':' :: (B ++ ':' :: (C ++ ':' :: D))) = [A, B, C, D] := by
  rw [splitOnChar_append _ hA, splitOnChar_append _ hB, splitOnChar_append _ hC,
    splitOnChar_no_sep hD]

theorem append_sep_inj {X Y R S : List Char} {sep : Char} (hX : sep ∉ X) (hY : sep ∉ Y)
    (h : X ++ sep :: R = Y ++ sep :: S) : X = Y ∧ R = S := by
  have h1 : X :: splitOnChar sep R = Y :: splitOnChar sep S := by
    rw [← splitOnChar_append R hX, ← splitOnChar_append S hY, h]
  have hXY : X = Y := by injection h1
  subst hXY
  have h2 : sep :: R = sep :: S := List.append_cancel_left h
  have h3 : R = S := by injection h2
  exact ⟨rfl, h3⟩

theorem cons_at_ne {p s : List Char} {x y : Char} (hxy : x ≠ y) :
    p ++ x :: s ≠ p ++ y :: s := by
  intro h
  have h2 : x :: s = y :: s := List.append_cancel_left h
  have : x = y := by injection h2
  exact hxy this

theorem append_cons_eq_append {α : Type} {p s A R : List α} {x : α}
    (h : p ++ x :: s = A ++ R) :
    (∃ q, A = p ++ x :: q ∧ s = q ++ R) ∨ (∃ q, p = A ++ q ∧ R = q ++ x :: s) := by
  rcases List.append_eq_append_iff.mp h with ⟨a', ha1, ha2⟩ | ⟨c', hc1, hc2⟩
  · cases a' with
    | nil =>
      right
      refine ⟨[], by simpa using ha1.symm, ?_⟩
      simpa using ha2.symm
    | cons z q =>
      left
      have ha2' : x :: s = z :: (q ++ R) := by simpa using ha2
      have hx : x = z := by injection ha2'
      have hs : s = q ++ R := by injection ha2'
      exact ⟨q, by rw [ha1, hx], hs⟩
  · exact Or.inr ⟨c', hc1, hc2⟩

theorem mutated_token_regions {A B C p s : PyStr} {x y : Char} {t' : PyStr}
    (hA : ':' ∉ A) (hB : ':' ∉ B) (hC : ':' ∉ C)
    (ht : A ++ ':' :: (B ++ ':' :: C) = p ++ x :: s) (ht' : t' = p ++ y :: s)
    (hxy : x ≠ y) :
    (splitOnChar ':' t').length ≠ 3
    ∨ (∃ A', splitOnChar ':' t' = [A', B, C])
    ∨ (∃ B', splitOnChar ':' t' = [A, B', C])
    ∨ (∃ C', splitOnChar ':' t' = [A, B, C'] ∧ C' ≠ C) := by
  subst ht'
  rcases append_cons_eq_append ht.symm with ⟨q, hA1, hs1⟩ | ⟨q, hp1, hR1⟩
  · -- the mutated position lies inside the user-id part A
    rw [hA1] at hA
    have hp : ':' ∉ p := fun hm => hA (List.mem_append_left _ hm)
    have hq : ':' ∉ q := fun hm => hA (List.mem_append_right _ (List.mem_cons_of_mem _ hm))
    subst hs1
    by_cases hy : y = ':'
    · left
      subst hy
      rw [split_token4 hp hq hB hC]
      simp
    · right; left
      refine ⟨p ++ y :: q, ?_⟩
      have hT : p ++ y :: (q ++ ':' :: (B ++ ':' :: C))
          = (p ++ y :: q) ++ ':' :: (B ++ ':' :: C) := by simp
      rw [hT, split_token (not_mem_append_cons hp hq hy) hB hC]
  · cases q with
    | nil =>
      -- the first separator itself is mutated
      simp only [List.nil_append] at hR1 hp1
      have hx : (':' : Char) = x := by injection hR1
      have hs : B ++ ':' :: C = s := by injection hR1
      have hy : y ≠ ':' := fun h => hxy (by rw [← hx, h])
      left
      rw [hp1, ← hs]
      have hT : A ++ [] ++ y :: (B ++ ':' :: C) = (A ++ y :: B) ++ ':' :: C := by simp
      rw [hT, split_token2 (not_mem_append_cons hA hB hy) hC]
      simp
    | cons z q' =>
      rw [List.cons_append] at hR1
      have hz : (':' : Char) = z := by injection hR1
      have hR2 : B ++ ':' :: C = q' ++ x :: s := by injection hR1
      rcases append_cons_eq_append hR2.symm with ⟨r, hB1, hs1⟩ | ⟨r, hq1, hR3⟩
      · -- the mutated position lies inside the timestamp part B
        rw [hB1] at hB
        have hq' : ':' ∉ q' := fun hm => hB (List.mem_append_left _ hm)
        have hr : ':' ∉ r := fun hm => hB (List.mem_append_right _ (List.mem_cons_of_mem _ hm))
        subst hs1
        have hp' : p = A ++ ':' :: q' := by rw [hp1, ← hz]
        by_cases hy : y = ':'
        · left
          subst hy
          rw [hp']
          have hT : (A ++ ':' :: q') ++ ':' :: (r ++ ':' :: C)
              = A ++ ':' :: (q' ++ ':' :: (r ++ ':' :: C)) := by simp
          rw [hT, split_token4 hA hq' hr hC]
          simp
        · right; right; left
          refine ⟨q' ++ y :: r, ?_⟩
          rw [hp']
          have hT : (A ++ ':' :: q') ++ y :: (r ++ ':' :: C)
              = A ++ ':' :: ((q' ++ y :: r) ++ ':' :: C) := by simp
          rw [hT, split_token hA (not_mem_append_cons hq' hr hy) hC]
      · cases r with
        | nil =>
          -- the second separator itself is mutated
          simp only [List.nil_append] at hR3
          have hx : (':' : Char) = x := by injection hR3
          have hsC : C = s := by injection hR3
          have hy : y ≠ ':' := fun h => hxy (by rw [← hx, h])
          left
          have hq'' : q' = B := by simpa using hq1
          have hp' : p = A ++ ':' :: B := by rw [hp1, ← hz, hq'']
          rw [hp', ← hsC]
          have hT : (A ++ ':' :: B) ++ y :: C = A ++ ':' :: (B ++ y :: C) := by simp
          rw [hT, splitOnChar_append _ hA,
            splitOnChar_no_sep (not_mem_append_cons hB hC hy)]
          simp
        | cons w r' =>
          -- the mutated position lies inside the signature part C
          rw [List.cons_append] at hR3
          have hw : (':' : Char) = w := by injection hR3
          have hC2 : C = r' ++ x :: s := by injection hR3
          rw [hC2] at hC
          have hr' : ':' ∉ r' := fun hm => hC (List.mem_append_left _ hm)
          have hss : ':' ∉ s := fun hm => hC (List.mem_append_right _ (List.mem_cons_of_mem _ hm))
          have hq'2 : q' = B ++ ':' :: r' := by rw [hq1, ← hw]
          have hp' : p = A ++ ':' :: (B ++ ':' :: r') := by rw [hp1, ← hz, hq'2]
          by_cases hy : y = ':'
          · left
            subst hy
            rw [hp']
            have hT : (A ++ ':' :: (B ++ ':' :: r')) ++ ':' :: s
                = A ++ ':' :: (B ++ ':' :: (r' ++ ':' :: s)) := by simp
            rw [hT, split_token4 hA hB hr' hss]
            simp
          · right; right; right
            refine ⟨r' ++ y :: s, ?_, ?_⟩
            · rw [hp']
              have hT : (A ++ ':' :: (B ++ ':' :: r')) ++ y :: s
                  = A ++ ':' :: (B ++ ':' :: (r' ++ y :: s)) := by simp
              rw [hT, split_token hA hB (not_mem_append_cons hr' hss hy)]
            · rw [hC2]
              exact cons_at_ne (fun he => hxy he.symm)

theorem check_token_not3 (sha : PyStr → PyStr) (dv : Char → Option Nat) (secret : PyStr)
    {t : PyStr} (now : Int) (h : (splitOnChar ':' t).length ≠ 3) :
    check_token sha dv secret t now = none := by
  unfold check_token
  rcases hs : splitOnChar ':' t with _ | ⟨a, _ | ⟨b, _ | ⟨c, _ | ⟨d, l⟩⟩⟩⟩
  · simp only [checkParts]
  · simp only [checkParts]
  · simp only [checkParts]
  · rw [hs] at h
    simp at h
  · simp only [checkParts]

theorem tokenVals_some {dv : Char → Option Nat} {t a b c : PyStr} {u' ts' : Int}
    (hs : splitOnChar ':' t = [a, b, c]) (ha : pyIntParse dv a = some u')
    (hb : pyIntParse dv b = some ts') : tokenVals dv t = some (u', ts', c) := by
  unfold tokenVals
  rw [hs]
  simp only [ha, hb]

/-- C1 (amended): the token contract.  The round-trip, expiry rejection,
malformed-shape rejection and signature-mismatch rejection hold as claimed;
a single-character mutation of a valid token is rejected at every check time
UNLESS it leaves the parsed user id, parsed timestamp and signature part all
unchanged — which Python's `int()` makes possible by replacing a digit of
the user-id or timestamp part with a different Unicode decimal digit
yielding the same value — in which case `check_token` treats the mutated
token exactly like the original (in particular it returns the same user id
inside the 24-hour window).  `sha` is collision-free at the relevant points
(`SigInjectiveAt`), its truncated digests contain no `:` (`SigColonFree`),
and the digit table extends the ASCII digits (`AsciiDigitTable`). -/
theorem check_token_amended_contract (sha : PyStr → PyStr) (dv : Char → Option Nat)
    (secret : PyStr) (u ts : Int) (hdv : AsciiDigitTable dv) (hsha : SigColonFree sha)
    (hinj : SigInjectiveAt sha secret u ts) :
    checkTokenContract sha dv secret u ts := by
  have hpu := pyIntParse_pyStrInt dv hdv u
  have hpts := pyIntParse_pyStrInt dv hdv ts
  have hAco := pyStrInt_no_colon u
  have hBco := pyStrInt_no_colon ts
  have hCco : ':' ∉ sigOf sha secret u ts := hsha _
  have hsplit_tok : splitOnChar ':' (make_token sha secret u ts)
      = [pyStrInt u, pyStrInt ts, sigOf sha secret u ts] := by
    unfold make_token
    exact split_token hAco hBco hCco
  unfold checkTokenContract
  refine ⟨?_, ?_, ?_, ?_, ?_⟩
  · -- round-trip immediately after issuance
    unfold check_token
    rw [hsplit_tok]
    simp only [checkParts, hpu, hpts]
    rw [if_neg (by omega : ¬(ts - ts > 86400)), if_neg (fun hne => hne rfl)]
  · -- expiry rejection
    intro t p1 p2 p3 ts' now hs hp2 hexp
    unfold check_token
    rw [hs]
    cases hp1c : pyIntParse dv p1 with
    | none => simp only [checkParts, hp1c]
    | some u'' =>
      simp only [checkParts, hp1c, hp2]
      rw [if_pos hexp]
  · -- malformed-shape rejection
    intro t now hlen
    exact check_token_not3 sha dv secret now hlen
  · -- signature-mismatch rejection
    intro t p1 p2 p3 u' ts' now hs hp1 hp2 hne
    unfold check_token
    rw [hs]
    simp only [checkParts, hp1, hp2]
    by_cases hexp : now - ts' > 86400
    · rw [if_pos hexp]
    · rw [if_neg hexp, if_pos hne]
  · -- single-character mutation dichotomy
    intro t' hmut
    obtain ⟨p, x, y, s, hxy, htok, ht'⟩ := hmut
    have htok2 : pyStrInt u ++ ':' :: (pyStrInt ts ++ ':' :: sigOf sha secret u ts)
        = p ++ x :: s := htok
    rcases mutated_token_regions hAco hBco hCco htok2 ht' hxy with
      hlen | ⟨A', hsA⟩ | ⟨B', hsB⟩ | ⟨C', hsC, hCne⟩
    · exact Or.inl (fun now => check_token_not3 sha dv secret now hlen)
    · -- mutation inside the user-id part
      cases hpA : pyIntParse dv A' with
      | none =>
        left
        intro now
        unfold check_token
        rw [hsA]
        simp only [checkParts, hpA]
      | some u' =>
        by_cases hu : u' = u
        · right
          subst hu
          refine ⟨tokenVals_some hsA hpA hpts, ?_⟩
          intro now
          unfold check_token
          rw [hsA, hsplit_tok]
          simp only [checkParts, hpA, hpu, hpts]
        · left
          intro now
          unfold check_token
          rw [hsA]
          simp only [checkParts, hpA, hpts]
          by_cases hexp : now - ts > 86400
          · rw [if_pos hexp]
          · have hcond : sigOf sha secret u ts ≠ sigOf sha secret u' ts :=
              fun he => hu (hinj u' ts he.symm).1
            rw [if_neg hexp, if_pos hcond]
    · -- mutation inside the timestamp part
      cases hpB : pyIntParse dv B' with
      | none =>
        left
        intro now
        unfold check_token
        rw [hsB]
        simp only [checkParts, hpu, hpB]
      | some ts' =>
        by_cases hts : ts' = ts
        · right
          subst hts
          refine ⟨tokenVals_some hsB hpu hpB, ?_⟩
          intro now
          unfold check_token
          rw [hsB, hsplit_tok]
          simp only [checkParts, hpu, hpB, hpts]
        · left
          intro now
          unfold check_token
          rw [hsB]
          simp only [checkParts, hpu, hpB]
          by_cases hexp : now - ts' > 86400
          · rw [if_pos hexp]
          · have hcond : sigOf sha secret u ts ≠ sigOf sha secret u ts' :=
              fun he => hts (hinj u ts' he.symm).2
            rw [if_neg hexp, if_pos hcond]
    · -- mutation inside the signature part
      left
      intro now
      unfold check_token
      rw [hsC]
      simp only [checkParts, hpu, hpts]
      by_cases hexp : now - ts > 86400
      · rw [if_pos hexp]
      · rw [if_neg hexp, if_pos hCne]

/-- C1 witness: the contract holds at a concrete instance (user 13, issue
time 0, empty secret, `shaC` collision-free at the relevant points, `dvC`
the ASCII digits plus ARABIC-INDIC DIGIT THREE). -/
theorem check_token_amended_contract_witness :
    AsciiDigitTable dvC ∧ SigColonFree shaC ∧ SigInjectiveAt shaC [] 13 0
    ∧ checkTokenContract shaC dvC [] 13 0 := by
  have hw1 : AsciiDigitTable dvC := by
    unfold AsciiDigitTable dvC
    decide
  have hw2 : SigColonFree shaC := by
    intro s
    unfold shaC
    by_cases h : s = sigMsg [] 13 0
    · rw [if_pos h]
      decide
    · rw [if_neg h]
      decide
  have hw3 : SigInjectiveAt shaC [] 13 0 := by
    intro u' ts' h
    unfold sigOf shaC at h
    by_cases hc : sigMsg [] u' ts' = sigMsg [] 13 0
    · unfold sigMsg at hc
      obtain ⟨h1, h2⟩ := append_sep_inj (pyStrInt_no_colon u') (pyStrInt_no_colon 13) hc
      obtain ⟨h3, _⟩ := append_sep_inj (pyStrInt_no_colon ts') (pyStrInt_no_colon 0) h2
      exact ⟨pyStrInt_inj h1, pyStrInt_inj h3⟩
    · exfalso
      rw [if_neg hc, if_pos rfl] at h
      exact absurd h (by decide)
  exact ⟨hw1, hw2, hw3, check_token_amended_contract shaC dvC [] 13 0 hw1 hw2 hw3⟩

/-- C1 counterexample: replacing the digit `3` of the user-id part of a
valid token by U+0663 (ARABIC-INDIC DIGIT THREE, also of value 3 for
Python's `int()`) is a single-character mutation, yet `check_token` still
accepts the mutated token and returns user 13 — the claim says every
single-character mutation is rejected. -/
theorem check_token_mutation_cex :
    MutatedAt (make_token shaC [] 13 0) tokMutC
    ∧ tokMutC ≠ make_token shaC [] 13 0
    ∧ check_token shaC dvC [] tokMutC 0 = some 13 := by
  refine ⟨⟨['1'], '3', Char.ofNat 1635, ':' :: '0' :: ':' :: List.replicate 16 'a',
    by decide, by decide, by decide⟩, by decide, by decide⟩
